import Mathlib

/-!
Verification development for the Crows_Nest wallet-analysis pipeline.

The Python sources (`config.py`, `wallet_holdings_analyzer.py`,
`wallet_score_manager.py`) are shallowly embedded below:

* machine floats become exact rationals (`ℚ`),
* the HTTP layer becomes an oracle `ℕ → ApiResp α` handing out one response
  per request made, with the number of consumed responses threaded through,
* the pandas ledger becomes a `List LedgerRecord`,
* the stable Python `list.sort` becomes `List.mergeSort` with the corresponding
  total preorder (stable sorting is extensionally unique).
-/

namespace CrowsNest

/-! ## config.py -/

def TOP_GAINERS_LIMIT : ℕ := 2500

def BOT_TRANSACTION_THRESHOLD : ℕ := 350

def SIGNIFICANT_HOLDING_THRESHOLD : ℚ := 9000

def MIN_SIGNIFICANT_HOLDINGS : ℕ := 2

/-! ## Data model (wallet_holdings_analyzer.py) -/

/-- One raw trader record from the gainers-losers endpoint: the fields
`calculate_trading_score` reads (`address`, `pnl`, `volume`, `trade_count`). -/
structure TraderData where
  address : String
  pnl : ℚ
  volume : ℚ
  trade_count : ℕ
deriving Repr, DecidableEq

/-- The `TraderMetrics` dataclass (holdings enrichment modelled separately). -/
structure TraderMetrics where
  address : String
  pnl : ℚ
  volume : ℚ
  trade_count : ℕ
  efficiency_score : ℚ
  trading_score : ℚ
deriving Repr, DecidableEq

/-! ## WalletAnalyzer.calculate_trading_score -/

/-- `min(100, (pnl / volume) * 200) if volume > 0 else 0` (line 201). -/
def efficiency_score (pnl volume : ℚ) : ℚ :=
  if 0 < volume then min 100 (pnl / volume * 200) else 0

/-- `min(100, pnl / 100000)` (line 204). -/
def pnl_score (pnl : ℚ) : ℚ := min 100 (pnl / 100000)

/-- `min(100, max(0, (profit_per_trade - 1000) / 19000 * 100))` where
`profit_per_trade = pnl / trade_count` (lines 205-206). -/
def activity_score (pnl : ℚ) (trade_count : ℕ) : ℚ :=
  min 100 (max 0 ((pnl / (trade_count : ℚ) - 1000) / 19000 * 100))

/-- `efficiency_score * 0.33 + pnl_score * 0.33 + activity_score * 0.34`. -/
def trading_score_calc (pnl volume : ℚ) (trade_count : ℕ) : ℚ :=
  efficiency_score pnl volume * (33 / 100) + pnl_score pnl * (33 / 100) +
    activity_score pnl trade_count * (34 / 100)

/-- `WalletAnalyzer.calculate_trading_score`: rejects bot-like records
(`trade_count > BOT_TRANSACTION_THRESHOLD or trade_count == 0`), otherwise
builds a `TraderMetrics`. -/
def calculate_trading_score (t : TraderData) : Option TraderMetrics :=
  if BOT_TRANSACTION_THRESHOLD < t.trade_count ∨ t.trade_count = 0 then none
  else
    some
      { address := t.address
        pnl := t.pnl
        volume := t.volume
        trade_count := t.trade_count
        efficiency_score := efficiency_score t.pnl t.volume
        trading_score := trading_score_calc t.pnl t.volume t.trade_count }

end CrowsNest

namespace CrowsNest

/-! ## Claim C1: score bounds -/

/-- C1 counterexample: the record with `pnl = -100000`, `volume = 1`,
`trade_count = 1` is accepted by the scorer, yet its `efficiency_score`,
`pnl_score` and `trading_score` are all strictly negative, so the claimed
bounds `∈ [0,100]` fail: the code caps the scores at 100 from above but never
clamps them at 0 from below. -/
theorem calculate_trading_score_not_lower_bounded :
    (calculate_trading_score ⟨"A", -100000, 1, 1⟩).isSome = true ∧
      efficiency_score (-100000) 1 < 0 ∧
      pnl_score (-100000) < 0 ∧
      trading_score_calc (-100000) 1 1 < 0 := by
  refine ⟨rfl, ?_, ?_, ?_⟩ <;>
    simp only [efficiency_score, pnl_score, trading_score_calc, activity_score] <;>
    norm_num

/-- C1 (amended): for every trader record accepted by the scorer,
`efficiency_score`, `pnl_score` and `activity_score` are each at most 100,
`activity_score` is also nonnegative, and the blend
`trading_score = 0.33*eff + 0.33*pnl + 0.34*act` is at most 100; when
additionally `pnl ≥ 0`, all three component scores and the blended
trading score lie in `[0, 100]`. -/
theorem calculate_trading_score_bounds (t : TraderData)
    (h : (calculate_trading_score t).isSome = true) :
    efficiency_score t.pnl t.volume ≤ 100 ∧
      pnl_score t.pnl ≤ 100 ∧
      0 ≤ activity_score t.pnl t.trade_count ∧
      activity_score t.pnl t.trade_count ≤ 100 ∧
      trading_score_calc t.pnl t.volume t.trade_count ≤ 100 ∧
      (0 ≤ t.pnl →
        0 ≤ efficiency_score t.pnl t.volume ∧
          0 ≤ pnl_score t.pnl ∧
          0 ≤ trading_score_calc t.pnl t.volume t.trade_count) := by
  clear h
  have heff : efficiency_score t.pnl t.volume ≤ 100 := by
    unfold efficiency_score
    split
    · exact min_le_left _ _
    · norm_num
  have hpnl : pnl_score t.pnl ≤ 100 := min_le_left _ _
  have hact0 : 0 ≤ activity_score t.pnl t.trade_count := by
    unfold activity_score
    exact le_min (by norm_num) (le_max_left _ _)
  have hact1 : activity_score t.pnl t.trade_count ≤ 100 := min_le_left _ _
  refine ⟨heff, hpnl, hact0, hact1, ?_, ?_⟩
  · unfold trading_score_calc
    linarith
  · intro hp
    have heff0 : 0 ≤ efficiency_score t.pnl t.volume := by
      unfold efficiency_score
      split
      · rename_i hv
        exact le_min (by norm_num) (mul_nonneg (div_nonneg hp hv.le) (by norm_num))
      · norm_num
    have hpnl0 : 0 ≤ pnl_score t.pnl := by
      unfold pnl_score
      exact le_min (by norm_num) (div_nonneg hp (by norm_num))
    refine ⟨heff0, hpnl0, ?_⟩
    unfold trading_score_calc
    linarith

/-- C1 amended-claim witness at a concrete accepted record. -/
theorem calculate_trading_score_bounds_witness :
    (calculate_trading_score ⟨"A", 50000, 1000000, 10⟩).isSome = true ∧
      efficiency_score (50000 : ℚ) 1000000 ≤ 100 ∧
      0 ≤ trading_score_calc (50000 : ℚ) 1000000 10 := by
  have h : (calculate_trading_score ⟨"A", 50000, 1000000, 10⟩).isSome = true := rfl
  have hb := calculate_trading_score_bounds ⟨"A", 50000, 1000000, 10⟩ h
  exact ⟨h, hb.1, (hb.2.2.2.2.2 (by norm_num)).2.2⟩

/-! ## main: dedup loop (lines 236-242) -/

/-- The first record in fetch order whose scoring succeeds and whose resulting
metrics carry the given address. -/
def firstAccepted : List TraderData → String → Option TraderMetrics
  | [], _ => none
  | t :: ts, a =>
    match calculate_trading_score t with
    | some m => if m.address = a then some m else firstAccepted ts a
    | none => firstAccepted ts a

/-- The `for trader in traders` loop of `main` with its `seen_addresses` set:
score each record, keep it only if scoring succeeded and the address is new. -/
def process_traders_aux : List TraderData → List String → List TraderMetrics
  | [], _ => []
  | t :: ts, seen =>
    match calculate_trading_score t with
    | some m =>
      if m.address ∈ seen then process_traders_aux ts seen
      else m :: process_traders_aux ts (m.address :: seen)
    | none => process_traders_aux ts seen

/-- Steps 2 of `main`: dedup starting from an empty `seen_addresses` set. -/
def process_traders (l : List TraderData) : List TraderMetrics :=
  process_traders_aux l []

theorem process_traders_aux_first (l : List TraderData) :
    ∀ (seen : List String), ∀ m ∈ process_traders_aux l seen,
      m.address ∉ seen ∧ firstAccepted l m.address = some m := by
  induction l with
  | nil => intro seen m hm; simp [process_traders_aux] at hm
  | cons t ts ih =>
    intro seen m hm
    simp only [process_traders_aux] at hm
    split at hm
    · rename_i m0 hcs
      split at hm
      · rename_i hseen
        obtain ⟨hns, hfa⟩ := ih seen m hm
        have hne : m0.address ≠ m.address := fun he => hns (he ▸ hseen)
        exact ⟨hns, by simp [firstAccepted, hcs, hne, hfa]⟩
      · rename_i hseen
        rcases List.mem_cons.mp hm with he | hm'
        · subst he
          exact ⟨hseen, by simp [firstAccepted, hcs]⟩
        · obtain ⟨hns, hfa⟩ := ih (m0.address :: seen) m hm'
          have hne : m0.address ≠ m.address := by
            intro he
            exact hns (by rw [← he]; exact List.mem_cons_self _ _)
          exact ⟨fun hc => hns (List.mem_cons_of_mem _ hc),
            by simp [firstAccepted, hcs, hne, hfa]⟩
    · rename_i hcs
      obtain ⟨hns, hfa⟩ := ih seen m hm
      exact ⟨hns, by simp [firstAccepted, hcs, hfa]⟩

theorem process_traders_aux_nodup (l : List TraderData) :
    ∀ (seen : List String),
      ((process_traders_aux l seen).map (fun m => m.address)).Nodup := by
  induction l with
  | nil => intro seen; simp [process_traders_aux]
  | cons t ts ih =>
    intro seen
    simp only [process_traders_aux]
    split
    · rename_i m0 hcs
      split
      · exact ih seen
      · rename_i hseen
        simp only [List.map_cons, List.nodup_cons]
        refine ⟨?_, ih (m0.address :: seen)⟩
        intro hmem
        obtain ⟨m, hm, he⟩ := List.mem_map.mp hmem
        obtain ⟨hns, -⟩ := process_traders_aux_first ts (m0.address :: seen) m hm
        exact hns (by rw [he]; exact List.mem_cons_self _ _)
    · exact ih seen

/-- C6: the processed snapshot contains each address at most once, and the
metrics kept for an address are those of the first record in fetch order whose
scoring succeeds with that address; later records with an already-seen address
are discarded. -/
theorem process_traders_dedup_first_wins (l : List TraderData) :
    ((process_traders l).map (fun m => m.address)).Nodup ∧
      ∀ m ∈ process_traders l, firstAccepted l m.address = some m := by
  refine ⟨process_traders_aux_nodup l [], ?_⟩
  intro m hm
  exact (process_traders_aux_first l [] m hm).2

/-- C6 witness: a concrete list with a repeated address; the snapshot keeps the
metrics of the first record. -/
theorem process_traders_dedup_first_wins_witness :
    ((⟨"A", 100000, 1000000, 10, efficiency_score 100000 1000000,
        trading_score_calc 100000 1000000 10⟩ : TraderMetrics) ∈
      process_traders [⟨"A", 100000, 1000000, 10⟩, ⟨"A", 5, 5, 5⟩]) ∧
      firstAccepted [⟨"A", 100000, 1000000, 10⟩, ⟨"A", 5, 5, 5⟩] "A" =
        some (⟨"A", 100000, 1000000, 10, efficiency_score 100000 1000000,
          trading_score_calc 100000 1000000 10⟩ : TraderMetrics) := by
  have hm : ((⟨"A", 100000, 1000000, 10, efficiency_score 100000 1000000,
      trading_score_calc 100000 1000000 10⟩ : TraderMetrics) ∈
      process_traders [⟨"A", 100000, 1000000, 10⟩, ⟨"A", 5, 5, 5⟩]) := by
    simp [process_traders, process_traders_aux, calculate_trading_score,
      BOT_TRANSACTION_THRESHOLD]
  exact ⟨hm,
    (process_traders_dedup_first_wins [⟨"A", 100000, 1000000, 10⟩, ⟨"A", 5, 5, 5⟩]).2
      _ hm⟩

/-! ## main: sort step (line 245) -/

/-- `processed_traders.sort(key=lambda x: x.trading_score, reverse=True)`:
the stable descending Python sort, embedded as a stable merge sort with the
total preorder "has a trading score at least as large". -/
def sort_traders (l : List TraderMetrics) : List TraderMetrics :=
  l.mergeSort (fun a b => decide (b.trading_score ≤ a.trading_score))

/-- Stability of a stable merge sort for a predicate that holds only on
mutually `le`-equivalent elements: filtering the sorted list gives the
filtered input unchanged. -/
theorem filter_mergeSort_eq {α : Type} (le : α → α → Bool)
    (htrans : ∀ a b c : α, le a b = true → le b c = true → le a c = true)
    (htot : ∀ a b : α, (le a b || le b a) = true)
    (p : α → Bool) (l : List α)
    (hconst : ∀ a b : α, p a = true → p b = true → le a b = true) :
    (l.mergeSort le).filter p = l.filter p := by
  have hpairA : (l.filter p).Pairwise (fun a b => le a b = true) := by
    apply List.pairwise_of_forall_mem_list
    intro a ha b hb
    exact hconst a b (List.mem_filter.mp ha).2 (List.mem_filter.mp hb).2
  have hsub : List.Sublist (l.filter p) (l.mergeSort le) :=
    List.sublist_mergeSort htrans htot hpairA (List.filter_sublist l)
  have hsub2 := hsub.filter p
  rw [List.filter_filter] at hsub2
  simp only [Bool.and_self] at hsub2
  have hperm : List.Perm ((l.mergeSort le).filter p) (l.filter p) :=
    (List.mergeSort_perm l le).filter p
  exact (hsub2.eq_of_length hperm.length_eq.symm).symm

/-- C7: after the sort step the snapshot is non-increasing by trading score,
and traders with equal trading score keep their pre-sort relative order
(for each score value, filtering the sorted list gives exactly the filtered
input in its original order). -/
theorem sort_traders_sorted_stable (l : List TraderMetrics) :
    (sort_traders l).Pairwise (fun a b => b.trading_score ≤ a.trading_score) ∧
      ∀ c : ℚ,
        (sort_traders l).filter (fun m => decide (m.trading_score = c)) =
          l.filter (fun m => decide (m.trading_score = c)) := by
  have htrans : ∀ a b c : TraderMetrics,
      decide (b.trading_score ≤ a.trading_score) = true →
      decide (c.trading_score ≤ b.trading_score) = true →
      decide (c.trading_score ≤ a.trading_score) = true := by
    intro a b c hab hbc
    rw [decide_eq_true_iff] at *
    exact le_trans hbc hab
  have htot : ∀ a b : TraderMetrics,
      (decide (b.trading_score ≤ a.trading_score) ||
        decide (a.trading_score ≤ b.trading_score)) = true := by
    intro a b
    rcases le_total b.trading_score a.trading_score with h | h <;>
      simp [h]
  unfold sort_traders
  constructor
  · have hs := List.sorted_mergeSort htrans htot l
    exact hs.imp (fun hab => of_decide_eq_true hab)
  · intro c
    apply filter_mergeSort_eq _ htrans htot
    intro a b ha hb
    have ha' : a.trading_score = c := of_decide_eq_true ha
    have hb' : b.trading_score = c := of_decide_eq_true hb
    exact decide_eq_true (by rw [ha', hb'])

/-! ## WalletAnalyzer.get_wallet_holdings: filtering and formatting -/

/-- A raw holding as read by the code: missing `symbol` is the empty string,
missing `valueUsd` is 0 (the `h.get(...)` defaults in the code). -/
structure Holding where
  symbol : String
  valueUsd : ℚ
deriving Repr, DecidableEq

/-- The filter of lines 151-156: value above threshold, truthy symbol, truthy
value, symbol not in the excluded list `["USDC", "SOL"]`. -/
def is_significant (h : Holding) : Bool :=
  decide (SIGNIFICANT_HOLDING_THRESHOLD ≤ h.valueUsd) &&
    !decide (h.symbol = "") && !decide (h.valueUsd = 0) &&
    !decide (h.symbol = "USDC") && !decide (h.symbol = "SOL")

theorem is_significant_iff (h : Holding) :
    is_significant h = true ↔
      SIGNIFICANT_HOLDING_THRESHOLD ≤ h.valueUsd ∧ h.symbol ≠ "" ∧
        h.valueUsd ≠ 0 ∧ h.symbol ≠ "USDC" ∧ h.symbol ≠ "SOL" := by
  simp [is_significant, and_assoc]

/-- Floor of a rational (kernel-computable form of `⌊x⌋`). -/
def ratFloor (x : ℚ) : ℤ := x.num.fdiv x.den

/-- Round to the nearest integer, ties to even: the rounding that the Python
fixed-point float formatting performs. -/
def roundHalfEven (x : ℚ) : ℤ :=
  let f := ratFloor x
  let r := x - f
  if r < 1 / 2 then f
  else if 1 / 2 < r then f + 1
  else if f % 2 = 0 then f else f + 1

/-- Two-digit zero-padded rendering of `0 ≤ n < 100`. -/
def twoDigits (n : ℤ) : String :=
  if n < 10 then "0" ++ toString n else toString n

/-- `f"{value_millions:.2f}"` where `value_millions = valueUsd / 1_000_000`:
the value in millions rendered with exactly two decimals. -/
def formatMillions (valueUsd : ℚ) : String :=
  let cents : ℤ := roundHalfEven (valueUsd / 10000)
  toString (cents / 100) ++ "." ++ twoDigits (cents % 100)

/-- Line 163: the f-string interpolating the symbol and the value in
millions to two decimals with an m suffix. -/
def formatHolding (h : Holding) : String :=
  h.symbol ++ " " ++ formatMillions h.valueUsd ++ "m"

/-- Lines 151-157: filter to significant holdings, then stable-sort descending
by `valueUsd`. -/
def significant_holdings (hs : List Holding) : List Holding :=
  (hs.filter is_significant).mergeSort (fun a b => decide (b.valueUsd ≤ a.valueUsd))

/-- Lines 159-164: the formatted display strings, in sorted order. -/
def formatHoldings (hs : List Holding) : List String :=
  (significant_holdings hs).map formatHolding

/-- C8: every surviving holding meets the threshold and exclusion rules, the
surviving holdings are sorted non-increasing by USD value, and every output
string is the symbol followed by the value in millions to two decimals with an
`m` suffix. -/
theorem formatHoldings_spec (hs : List Holding) :
    (∀ h ∈ significant_holdings hs,
      h ∈ hs ∧ SIGNIFICANT_HOLDING_THRESHOLD ≤ h.valueUsd ∧
        h.symbol ≠ "" ∧ h.symbol ≠ "USDC" ∧ h.symbol ≠ "SOL") ∧
      (significant_holdings hs).Pairwise (fun a b => b.valueUsd ≤ a.valueUsd) ∧
      (∀ s ∈ formatHoldings hs, ∃ h, h ∈ hs ∧
        SIGNIFICANT_HOLDING_THRESHOLD ≤ h.valueUsd ∧ h.symbol ≠ "" ∧
          h.symbol ≠ "USDC" ∧ h.symbol ≠ "SOL" ∧
          s = h.symbol ++ " " ++ formatMillions h.valueUsd ++ "m") := by
  have hpart1 : ∀ h ∈ significant_holdings hs,
      h ∈ hs ∧ SIGNIFICANT_HOLDING_THRESHOLD ≤ h.valueUsd ∧
        h.symbol ≠ "" ∧ h.symbol ≠ "USDC" ∧ h.symbol ≠ "SOL" := by
    intro h hh
    unfold significant_holdings at hh
    rw [List.mem_mergeSort] at hh
    obtain ⟨h1, h2⟩ := List.mem_filter.mp hh
    obtain ⟨ha, hb, -, hd, he⟩ := (is_significant_iff h).mp h2
    exact ⟨h1, ha, hb, hd, he⟩
  have htrans : ∀ a b c : Holding,
      decide (b.valueUsd ≤ a.valueUsd) = true →
      decide (c.valueUsd ≤ b.valueUsd) = true →
      decide (c.valueUsd ≤ a.valueUsd) = true := by
    intro a b c hab hbc
    rw [decide_eq_true_iff] at *
    exact le_trans hbc hab
  have htot : ∀ a b : Holding,
      (decide (b.valueUsd ≤ a.valueUsd) || decide (a.valueUsd ≤ b.valueUsd)) =
        true := by
    intro a b
    rcases le_total b.valueUsd a.valueUsd with h | h <;> simp [h]
  refine ⟨hpart1, ?_, ?_⟩
  · have hs' := List.sorted_mergeSort htrans htot (hs.filter is_significant)
    exact hs'.imp (fun hab => of_decide_eq_true hab)
  · intro s hsmem
    unfold formatHoldings at hsmem
    obtain ⟨h, hh, he⟩ := List.mem_map.mp hsmem
    obtain ⟨h1, ha, hb, hd, he'⟩ := hpart1 h hh
    exact ⟨h, h1, ha, hb, hd, he', by rw [← he]; rfl⟩

/-- C8 witness: the scenario of the spec, a holding `{symbol: "XYZ", valueUsd:
15,000,000}` is formatted as `"XYZ 15.00m"`; a stablecoin and a
below-threshold holding are dropped. -/
theorem formatHoldings_spec_witness :
    ("XYZ 15.00m" ∈
      formatHoldings [⟨"XYZ", 15000000⟩, ⟨"USDC", 20000000⟩, ⟨"ABC", 100⟩]) ∧
      (∃ h, h ∈ [(⟨"XYZ", 15000000⟩ : Holding), ⟨"USDC", 20000000⟩, ⟨"ABC", 100⟩] ∧
        SIGNIFICANT_HOLDING_THRESHOLD ≤ h.valueUsd ∧ h.symbol ≠ "" ∧
          h.symbol ≠ "USDC" ∧ h.symbol ≠ "SOL" ∧
          "XYZ 15.00m" = h.symbol ++ " " ++ formatMillions h.valueUsd ++ "m") := by
  have hm : "XYZ 15.00m" ∈
      formatHoldings [⟨"XYZ", 15000000⟩, ⟨"USDC", 20000000⟩, ⟨"ABC", 100⟩] := by
    with_unfolding_all decide
  exact ⟨hm,
    (formatHoldings_spec [⟨"XYZ", 15000000⟩, ⟨"USDC", 20000000⟩, ⟨"ABC", 100⟩]).2.2
      _ hm⟩

/-! ## The HTTP layer

Requests are embedded as an oracle `f : ℕ → ApiResp α` handing the response to
the n-th request made; the index of the next unconsumed response is threaded
through every function, so "how many requests were made" is observable. -/

/-- Classification of one HTTP response exactly as the code branches on it:
status 429, status other than 200/429, `success: false` body, a good body with
its items, a `requests` timeout, or another request exception. -/
inductive ApiResp (α : Type) where
  | rateLimited
  | httpError
  | notSuccess
  | ok (items : List α)
  | timeout
  | netError
deriving Repr, DecidableEq

/-- `self.max_retries = 3`. -/
def max_retries : ℕ := 3

/-- How one `get_wallet_holdings` attempt loop ends: a successful parse (the
formatted strings, cached), a non-retryable failure (Python returns `None`,
nothing cached), or retry exhaustion (Python returns `[]`, nothing cached). -/
inductive FetchOutcome where
  | success (formatted : List String)
  | fatal
  | exhausted
deriving Repr, DecidableEq

/-- The `while retry_count < self.max_retries` loop of `get_wallet_holdings`
(lines 119-184), with `fuel = max_retries - retry_count`: 429, timeout and
request errors consume one retry and continue; non-200 status and
`success: false` break out; a good response returns the formatted holdings
(an empty items array short-circuits to `[]`, also cached). -/
def holdingsLoop (f : ℕ → ApiResp Holding) : ℕ → ℕ → FetchOutcome × ℕ
  | 0, k => (.exhausted, k)
  | fuel + 1, k =>
    match f k with
    | .rateLimited => holdingsLoop f fuel (k + 1)
    | .timeout => holdingsLoop f fuel (k + 1)
    | .netError => holdingsLoop f fuel (k + 1)
    | .httpError => (.fatal, k + 1)
    | .notSuccess => (.fatal, k + 1)
    | .ok items =>
      if items.isEmpty then (.success [], k + 1)
      else (.success (formatHoldings items), k + 1)

/-- `self.holdings_cache` lookup (`if wallet in self.holdings_cache`). -/
def cacheLookup (cache : List (String × List String)) (w : String) :
    Option (List String) :=
  (cache.find? (fun e => e.1 == w)).map (fun e => e.2)

/-- `get_wallet_holdings`: serve from cache when present; otherwise run the
retry loop, caching only the success outcome; a fatal break falls off the end
of the function (Python `None`); retry exhaustion returns `[]` uncached. -/
def get_wallet_holdings (f : ℕ → ApiResp Holding)
    (cache : List (String × List String)) (w : String) (k : ℕ) :
    Option (List String) × List (String × List String) × ℕ :=
  match cacheLookup cache w with
  | some v => (some v, cache, k)
  | none =>
    match holdingsLoop f max_retries k with
    | (.success r, k') => (some r, (w, r) :: cache, k')
    | (.fatal, k') => (none, cache, k')
    | (.exhausted, k') => (some [], cache, k')

theorem holdingsLoop_le (f : ℕ → ApiResp Holding) :
    ∀ fuel k, k ≤ (holdingsLoop f fuel k).2 := by
  intro fuel
  induction fuel with
  | zero => intro k; simp [holdingsLoop]
  | succ n ih =>
    intro k
    simp only [holdingsLoop]
    cases hfk : f k with
    | rateLimited => exact le_trans (Nat.le_succ k) (ih (k + 1))
    | timeout => exact le_trans (Nat.le_succ k) (ih (k + 1))
    | netError => exact le_trans (Nat.le_succ k) (ih (k + 1))
    | httpError => exact Nat.le_succ k
    | notSuccess => exact Nat.le_succ k
    | ok items =>
      dsimp only
      split <;> exact Nat.le_succ k

theorem holdingsLoop_lt (f : ℕ → ApiResp Holding) (fuel k : ℕ)
    (hf : 0 < fuel) : k < (holdingsLoop f fuel k).2 := by
  cases fuel with
  | zero => omega
  | succ n =>
    simp only [holdingsLoop]
    cases hfk : f k with
    | rateLimited => exact lt_of_lt_of_le (Nat.lt_succ_self k) (holdingsLoop_le f n (k + 1))
    | timeout => exact lt_of_lt_of_le (Nat.lt_succ_self k) (holdingsLoop_le f n (k + 1))
    | netError => exact lt_of_lt_of_le (Nat.lt_succ_self k) (holdingsLoop_le f n (k + 1))
    | httpError => exact Nat.lt_succ_self k
    | notSuccess => exact Nat.lt_succ_self k
    | ok items =>
      dsimp only
      split <;> exact Nat.lt_succ_self k

/-- C10: the holdings fetch caches only successes. A cached wallet is answered
from the cache with no request made; an uncached wallet whose loop succeeds
returns the formatted list, caches it, and any later call answers it from the
cache without consuming responses; an uncached wallet whose loop exhausts its
retries returns `[]` with the cache unchanged, and any call for an uncached
wallet consumes at least one response (a fresh fetch). -/
theorem get_wallet_holdings_cache (f : ℕ → ApiResp Holding)
    (cache : List (String × List String)) (w : String) (k : ℕ) :
    (∀ v, cacheLookup cache w = some v →
      get_wallet_holdings f cache w k = (some v, cache, k)) ∧
      (cacheLookup cache w = none →
        (∀ r k', holdingsLoop f max_retries k = (.success r, k') →
          get_wallet_holdings f cache w k = (some r, (w, r) :: cache, k') ∧
            ∀ k2, get_wallet_holdings f ((w, r) :: cache) w k2 =
              (some r, (w, r) :: cache, k2)) ∧
          (∀ k', holdingsLoop f max_retries k = (.exhausted, k') →
            get_wallet_holdings f cache w k = (some [], cache, k')) ∧
          (∀ k2, k2 < (get_wallet_holdings f cache w k2).2.2)) := by
  constructor
  · intro v hv
    unfold get_wallet_holdings
    rw [hv]
  · intro hn
    refine ⟨?_, ?_, ?_⟩
    · intro r k' hl
      constructor
      · unfold get_wallet_holdings
        rw [hn, hl]
      · intro k2
        unfold get_wallet_holdings
        have hc : cacheLookup ((w, r) :: cache) w = some r := by
          simp [cacheLookup]
        rw [hc]
    · intro k' hl
      unfold get_wallet_holdings
      rw [hn, hl]
    · intro k2
      unfold get_wallet_holdings
      rw [hn]
      have hlt : k2 < (holdingsLoop f max_retries k2).2 :=
        holdingsLoop_lt f max_retries k2 (by norm_num [max_retries])
      rcases hl : holdingsLoop f max_retries k2 with ⟨out, k'⟩
      rw [hl] at hlt
      cases out <;> simpa using hlt

/-- C10 witness: a concrete uncached fetch succeeds, caches its result, and a
later call is answered from the cache without consuming any response. -/
theorem get_wallet_holdings_cache_witness :
    get_wallet_holdings (fun _ => ApiResp.ok [⟨"XYZ", 15000000⟩]) [] "w" 0 =
      (some ["XYZ 15.00m"], [("w", ["XYZ 15.00m"])], 1) ∧
      get_wallet_holdings (fun _ => ApiResp.ok [⟨"XYZ", 15000000⟩])
        [("w", ["XYZ 15.00m"])] "w" 5 =
        (some ["XYZ 15.00m"], [("w", ["XYZ 15.00m"])], 5) := by
  have h :=
    (get_wallet_holdings_cache (fun _ => ApiResp.ok [⟨"XYZ", 15000000⟩]) [] "w" 0).2
      (by with_unfolding_all rfl)
  have hs := h.1 ["XYZ 15.00m"] 1 (by with_unfolding_all rfl)
  exact ⟨hs.1, hs.2 5⟩

/-! ## WalletAnalyzer.get_top_traders (lines 63-111) -/

/-- The inner `while retry_count < self.max_retries` loop for one page
(one offset): 429 and exceptions consume one retry and continue; non-200
status and `success: false` break with nothing; a good response contributes
its items (an empty batch also just breaks). -/
def fetchPage {α : Type} (f : ℕ → ApiResp α) : ℕ → ℕ → List α × ℕ
  | 0, k => ([], k)
  | fuel + 1, k =>
    match f k with
    | .rateLimited => fetchPage f fuel (k + 1)
    | .timeout => fetchPage f fuel (k + 1)
    | .netError => fetchPage f fuel (k + 1)
    | .httpError => ([], k + 1)
    | .notSuccess => ([], k + 1)
    | .ok items => (items, k + 1)

/-- `range(0, limit, 10)`: the offsets the `for` loop iterates over. -/
def pageOffsets (limit : ℕ) : List ℕ :=
  (List.range ((limit + 9) / 10)).map (fun i => i * 10)

/-- The `for offset in range(0, limit, 10)` loop: one `fetchPage` per offset,
unconditionally — the inner `break` on an empty batch only ends the retry
loop of that offset, never the `for` loop. -/
def get_top_traders_aux {α : Type} (f : ℕ → ApiResp α) :
    List ℕ → ℕ → List α × ℕ
  | [], k => ([], k)
  | _ :: offs, k =>
    let p := fetchPage f max_retries k
    let rest := get_top_traders_aux f offs p.2
    (p.1 ++ rest.1, rest.2)

/-- `get_top_traders`: fetch every page offset below the limit and
concatenate the batches, returning also the number of requests made. -/
def get_top_traders {α : Type} (f : ℕ → ApiResp α) (limit : ℕ) : List α × ℕ :=
  get_top_traders_aux f (pageOffsets limit) 0

/-- A response the retry loops retry on (429 or a raised exception). -/
def retryable {α : Type} (r : ApiResp α) : Prop :=
  r = .rateLimited ∨ r = .timeout ∨ r = .netError

theorem fetchPage_retryable_step {α : Type} (f : ℕ → ApiResp α) (fuel k : ℕ)
    (h : retryable (f k)) : fetchPage f (fuel + 1) k = fetchPage f fuel (k + 1) := by
  rcases h with h | h | h <;> simp [fetchPage, h]

theorem holdingsLoop_retryable_step (g : ℕ → ApiResp Holding) (fuel k : ℕ)
    (h : retryable (g k)) :
    holdingsLoop g (fuel + 1) k = holdingsLoop g fuel (k + 1) := by
  rcases h with h | h | h <;> simp [holdingsLoop, h]

theorem fetchPage_retryable_exhausts {α : Type} (f : ℕ → ApiResp α) :
    ∀ (fuel k : ℕ), (∀ j, j < fuel → retryable (f (k + j))) →
      fetchPage f fuel k = ([], k + fuel) := by
  intro fuel
  induction fuel with
  | zero => intro k h; simp [fetchPage]
  | succ n ih =>
    intro k h
    have h0 : retryable (f k) := by simpa using h 0 (by omega)
    rw [fetchPage_retryable_step f n k h0]
    rw [ih (k + 1) (fun j hj => by
      have hj' := h (j + 1) (by omega)
      rwa [show k + (j + 1) = k + 1 + j by omega] at hj')]
    rw [Prod.mk.injEq]
    exact ⟨rfl, by omega⟩

theorem holdingsLoop_retryable_exhausts (g : ℕ → ApiResp Holding) :
    ∀ (fuel k : ℕ), (∀ j, j < fuel → retryable (g (k + j))) →
      holdingsLoop g fuel k = (.exhausted, k + fuel) := by
  intro fuel
  induction fuel with
  | zero => intro k h; simp [holdingsLoop]
  | succ n ih =>
    intro k h
    have h0 : retryable (g k) := by simpa using h 0 (by omega)
    rw [holdingsLoop_retryable_step g n k h0]
    rw [ih (k + 1) (fun j hj => by
      have hj' := h (j + 1) (by omega)
      rwa [show k + (j + 1) = k + 1 + j by omega] at hj')]
    rw [Prod.mk.injEq]
    exact ⟨rfl, by omega⟩

/-! ## Claim C3 -/

/-- C3 counterexample: with the first page empty and the second page holding
an item, `get_top_traders` with limit 20 still requests the second page
(2 responses consumed) and returns its item — it does not stop paginating
after the empty page, which only breaks the inner retry loop. -/
theorem get_top_traders_continues_after_empty_page :
    get_top_traders
        (fun j => if j = 0 then ApiResp.ok ([] : List ℕ) else ApiResp.ok [7]) 20 =
      ([7], 2) ∧ ([7] : List ℕ) ≠ [] := by
  exact ⟨rfl, by simp⟩

/-- C3 (amended): pagination uses fixed page size 10 at offsets 0, 10, ...
below the limit; an empty page ends only the retry loop of that offset, so when
every request succeeds, exactly `⌈limit / 10⌉` requests are made — one per
offset — and the result is the concatenation of all pages in offset order,
empty pages contributing nothing. -/
theorem get_top_traders_paginates_all_offsets {α : Type} (pages : ℕ → List α)
    (limit : ℕ) :
    get_top_traders (fun j => ApiResp.ok (pages j)) limit =
      (((List.range ((limit + 9) / 10)).map pages).flatten, (limit + 9) / 10) ∧
      (pageOffsets limit).length = (limit + 9) / 10 := by
  have haux : ∀ (offs : List ℕ) (k : ℕ),
      get_top_traders_aux (fun j => ApiResp.ok (pages j)) offs k =
        (((List.range' k offs.length).map pages).flatten, k + offs.length) := by
    intro offs
    induction offs with
    | nil => intro k; simp [get_top_traders_aux]
    | cons o offs ih =>
      intro k
      simp only [get_top_traders_aux]
      rw [show max_retries = 2 + 1 from rfl]
      simp only [fetchPage]
      rw [ih (k + 1)]
      simp only [List.length_cons, List.range'_succ, List.map_cons,
        List.flatten_cons]
      rw [Prod.mk.injEq]
      exact ⟨rfl, by omega⟩
  constructor
  · unfold get_top_traders
    rw [haux]
    simp [pageOffsets, List.range_eq_range']
  · simp [pageOffsets]

/-! ## Claim C4 -/

/-- C4 counterexample: three consecutive 429 responses abandon the request —
the page contributes nothing after exactly 3 attempts, and the holdings call
gives up and returns `[]` — so 429 responses do count against the retry cap. -/
theorem rateLimited_abandons_after_three :
    fetchPage (fun _ => (ApiResp.rateLimited : ApiResp ℕ)) max_retries 0 =
      ([], 3) ∧
      get_wallet_holdings (fun _ => ApiResp.rateLimited) [] "w" 0 =
        (some [], [], 3) := by
  exact ⟨rfl, rfl⟩

/-- C4 (amended): a 429 response is retried (after the grown backoff sleep),
but it increments the same per-request retry counter as any other failure:
each 429 consumes one unit of the retry cap, and `max_retries` consecutive
429s abandon the request (empty page / exhausted holdings fetch). -/
theorem rateLimited_counts_against_retry_cap (α : Type) :
    (∀ (f : ℕ → ApiResp α) (fuel k : ℕ), f k = .rateLimited →
      fetchPage f (fuel + 1) k = fetchPage f fuel (k + 1)) ∧
      (∀ (g : ℕ → ApiResp Holding) (fuel k : ℕ), g k = .rateLimited →
        holdingsLoop g (fuel + 1) k = holdingsLoop g fuel (k + 1)) ∧
      (∀ (f : ℕ → ApiResp α) (k : ℕ),
        (∀ j, j < max_retries → f (k + j) = .rateLimited) →
        fetchPage f max_retries k = ([], k + max_retries)) ∧
      (∀ (g : ℕ → ApiResp Holding) (k : ℕ),
        (∀ j, j < max_retries → g (k + j) = .rateLimited) →
        holdingsLoop g max_retries k = (.exhausted, k + max_retries)) := by
  refine ⟨?_, ?_, ?_, ?_⟩
  · intro f fuel k h
    exact fetchPage_retryable_step f fuel k (Or.inl h)
  · intro g fuel k h
    exact holdingsLoop_retryable_step g fuel k (Or.inl h)
  · intro f k h
    exact fetchPage_retryable_exhausts f max_retries k
      (fun j hj => Or.inl (h j hj))
  · intro g k h
    exact holdingsLoop_retryable_exhausts g max_retries k
      (fun j hj => Or.inl (h j hj))

/-- C4 amended-claim witness with an all-429 oracle. -/
theorem rateLimited_counts_against_retry_cap_witness :
    fetchPage (fun _ => (ApiResp.rateLimited : ApiResp ℕ)) max_retries 0 =
      ([], 0 + max_retries) ∧
      holdingsLoop (fun _ => (ApiResp.rateLimited : ApiResp Holding))
        (0 + 1) 4 = holdingsLoop (fun _ => ApiResp.rateLimited) 0 (4 + 1) := by
  have h := rateLimited_counts_against_retry_cap ℕ
  exact ⟨h.2.2.1 _ 0 (fun j hj => rfl), h.2.1 _ 0 4 rfl⟩

/-! ## Claim C5 -/

/-- C5 counterexample: an HTTP error status (e.g. a 5xx) is not retried —
the loop breaks after a single attempt (only 1 response consumed, the good
second response never requested), and the holdings call returns Python `None`
rather than an empty list. -/
theorem httpError_not_retried :
    fetchPage (fun j => if j = 0 then ApiResp.httpError else ApiResp.ok [7])
        max_retries 0 = (([] : List ℕ), 1) ∧
      get_wallet_holdings
          (fun j => if j = 0 then ApiResp.httpError
            else ApiResp.ok [⟨"XYZ", 15000000⟩]) [] "w" 0 =
        (none, [], 1) := by
  exact ⟨rfl, rfl⟩

/-- C5 (amended): network errors and timeouts are retried, each consuming one
unit of the fixed cap `max_retries = 3`; a fully transient run exhausts the
cap, after which the page contributes nothing and the holdings call returns
`[]` with the run continuing; but an HTTP status other than 200/429
(including 5xx) abandons the unit of work immediately without retrying, the
holdings call then returning `None`. -/
theorem transient_retry_fatal_break (α : Type) :
    (∀ (f : ℕ → ApiResp α) (fuel k : ℕ), f k = .timeout →
      fetchPage f (fuel + 1) k = fetchPage f fuel (k + 1)) ∧
      (∀ (f : ℕ → ApiResp α) (fuel k : ℕ), f k = .netError →
        fetchPage f (fuel + 1) k = fetchPage f fuel (k + 1)) ∧
      (∀ (f : ℕ → ApiResp α) (k : ℕ),
        (∀ j, j < max_retries → f (k + j) = .timeout ∨ f (k + j) = .netError) →
        fetchPage f max_retries k = ([], k + max_retries)) ∧
      (∀ (g : ℕ → ApiResp Holding) (fuel k : ℕ), g k = .timeout →
        holdingsLoop g (fuel + 1) k = holdingsLoop g fuel (k + 1)) ∧
      (∀ (g : ℕ → ApiResp Holding) (fuel k : ℕ), g k = .netError →
        holdingsLoop g (fuel + 1) k = holdingsLoop g fuel (k + 1)) ∧
      (∀ (g : ℕ → ApiResp Holding) (cache : List (String × List String))
          (w : String) (k k' : ℕ), cacheLookup cache w = none →
        holdingsLoop g max_retries k = (.exhausted, k') →
        get_wallet_holdings g cache w k = (some [], cache, k')) ∧
      (∀ (f : ℕ → ApiResp α) (fuel k : ℕ), f k = .httpError →
        fetchPage f (fuel + 1) k = ([], k + 1)) ∧
      (∀ (g : ℕ → ApiResp Holding) (fuel k : ℕ), g k = .httpError →
        holdingsLoop g (fuel + 1) k = (.fatal, k + 1)) := by
  refine ⟨?_, ?_, ?_, ?_, ?_, ?_, ?_, ?_⟩
  · intro f fuel k h
    exact fetchPage_retryable_step f fuel k (Or.inr (Or.inl h))
  · intro f fuel k h
    exact fetchPage_retryable_step f fuel k (Or.inr (Or.inr h))
  · intro f k h
    exact fetchPage_retryable_exhausts f max_retries k
      (fun j hj => (h j hj).elim (fun he => Or.inr (Or.inl he))
        (fun he => Or.inr (Or.inr he)))
  · intro g fuel k h
    exact holdingsLoop_retryable_step g fuel k (Or.inr (Or.inl h))
  · intro g fuel k h
    exact holdingsLoop_retryable_step g fuel k (Or.inr (Or.inr h))
  · intro g cache w k k' hn hl
    unfold get_wallet_holdings
    rw [hn, hl]
  · intro f fuel k h
    simp [fetchPage, h]
  · intro g fuel k h
    simp [holdingsLoop, h]

/-- C5 amended-claim witness: an all-timeout oracle exhausts the cap; a 5xx
response breaks at once. -/
theorem transient_retry_fatal_break_witness :
    fetchPage (fun _ => (ApiResp.timeout : ApiResp ℕ)) max_retries 0 =
      ([], 0 + max_retries) ∧
      holdingsLoop (fun _ => (ApiResp.httpError : ApiResp Holding)) (2 + 1) 5 =
        (.fatal, 5 + 1) := by
  have h := transient_retry_fatal_break ℕ
  exact ⟨h.2.2.1 _ 0 (fun j hj => Or.inl rfl),
    h.2.2.2.2.2.2.2 _ 2 5 rfl⟩

/-! ## wallet_score_manager.py: the persistent ledger -/

/-- One row of `historical/all_wallets.csv`. -/
structure LedgerRecord where
  wallet_address : String
  composite_score : ℚ
  last_seen : String
  appearances : ℕ
deriving Repr, DecidableEq

/-- One row of the incoming snapshot (`Wallet`, `Trading_Score`). -/
structure SnapshotRow where
  wallet : String
  trading_score : ℚ
deriving Repr, DecidableEq

/-- The masked pandas assignment `historical_df.loc[mask, col] = value`:
every record matching the wallet gets the blended score and incremented
appearance count (both computed from the first match). -/
def applyBlend (row : SnapshotRow) (newScore : ℚ) (newApp : ℕ)
    (r : LedgerRecord) : LedgerRecord :=
  if r.wallet_address == row.wallet then
    { r with composite_score := newScore, appearances := newApp }
  else r

/-- The body of `for _, row in current_df.iterrows()` (lines 72-105): blend
into an existing record, or append a fresh record with `appearances = 1`. -/
def processRow (today : String) (ledger : List LedgerRecord)
    (row : SnapshotRow) : List LedgerRecord :=
  match ledger.find? (fun r => r.wallet_address == row.wallet) with
  | some r0 =>
    ledger.map (applyBlend row
      (r0.composite_score * (7 / 10) + row.trading_score * (3 / 10))
      (r0.appearances + 1))
  | none => ledger ++ [⟨row.wallet, row.trading_score, today, 1⟩]

/-- Line 109: stamp `last_seen` for every record whose wallet occurs in the
current snapshot. -/
def touchLastSeen (today : String) (snapshot : List SnapshotRow)
    (ledger : List LedgerRecord) : List LedgerRecord :=
  ledger.map (fun r =>
    if snapshot.any (fun s => s.wallet == r.wallet_address) then
      { r with last_seen := today }
    else r)

/-- Line 112: `sort_values('composite_score', ascending=False)`. -/
def sortLedger (ledger : List LedgerRecord) : List LedgerRecord :=
  ledger.mergeSort (fun a b => decide (b.composite_score ≤ a.composite_score))

/-- The ledger-updating core of `update_scores`: fold the snapshot rows in
order, stamp `last_seen`, re-sort by composite score. -/
def update_scores (today : String) (ledger : List LedgerRecord)
    (snapshot : List SnapshotRow) : List LedgerRecord :=
  sortLedger (touchLastSeen today snapshot
    (snapshot.foldl (processRow today) ledger))

theorem applyBlend_wallet (row : SnapshotRow) (ns : ℚ) (na : ℕ)
    (r : LedgerRecord) : (applyBlend row ns na r).wallet_address = r.wallet_address := by
  unfold applyBlend
  split <;> rfl

theorem find?_map_preserve {α : Type} (f : α → α) (p : α → Bool)
    (hf : ∀ a, p (f a) = p a) :
    ∀ l : List α, (l.map f).find? p = (l.find? p).map f := by
  intro l
  induction l with
  | nil => rfl
  | cons a l ih =>
    rw [List.map_cons, List.find?_cons, List.find?_cons, hf a]
    cases p a
    · exact ih
    · rfl

/-- C2: one reconciliation step. If the wallet exists in the ledger with
score `S0` and `k` appearances, the entry becomes score `0.7*S0 + 0.3*S1`
with `k+1` appearances; if it is absent, a fresh record with score `S1` and
`appearances = 1` is inserted. -/
theorem processRow_blend (today : String) (L : List LedgerRecord)
    (row : SnapshotRow) :
    (∀ r0, L.find? (fun r => r.wallet_address == row.wallet) = some r0 →
      (processRow today L row).find? (fun r => r.wallet_address == row.wallet) =
        some { r0 with
          composite_score :=
            r0.composite_score * (7 / 10) + row.trading_score * (3 / 10)
          appearances := r0.appearances + 1 }) ∧
      (L.find? (fun r => r.wallet_address == row.wallet) = none →
        (processRow today L row).find? (fun r => r.wallet_address == row.wallet) =
          some ⟨row.wallet, row.trading_score, today, 1⟩) := by
  constructor
  · intro r0 h0
    have hp := List.find?_some h0
    simp only [processRow, h0]
    have hmap := find?_map_preserve
      (applyBlend row
        (r0.composite_score * (7 / 10) + row.trading_score * (3 / 10))
        (r0.appearances + 1))
      (fun r => r.wallet_address == row.wallet)
      (fun r => by simp only [applyBlend_wallet]) L
    rw [hmap, h0]
    simp [applyBlend, hp]
  · intro h0
    simp only [processRow, h0]
    simp [List.find?_append, h0]

/-- C2 witness: the scenario of the spec — ledger has `{A: 50, appearances: 2}`,
snapshot brings `{A: 90}`; the entry becomes score `0.7*50 + 0.3*90 = 62`
with 3 appearances. -/
theorem processRow_blend_witness :
    (processRow "d1" [⟨"A", 50, "d0", 2⟩] ⟨"A", 90⟩).find?
        (fun r => r.wallet_address == (⟨"A", 90⟩ : SnapshotRow).wallet) =
      some ⟨"A", 50 * (7 / 10) + 90 * (3 / 10), "d0", 2 + 1⟩ ∧
      (50 : ℚ) * (7 / 10) + 90 * (3 / 10) = 62 := by
  exact ⟨(processRow_blend "d1" [⟨"A", 50, "d0", 2⟩] ⟨"A", 90⟩).1
    ⟨"A", 50, "d0", 2⟩ rfl, by norm_num⟩

theorem mem_processRow_of_ne (today : String) (L : List LedgerRecord)
    (row : SnapshotRow) (r : LedgerRecord) (hr : r ∈ L)
    (hne : r.wallet_address ≠ row.wallet) : r ∈ processRow today L row := by
  rcases hf : L.find? (fun x => x.wallet_address == row.wallet) with - | r0 <;>
    simp only [processRow, hf]
  · exact List.mem_append_left _ hr
  · exact List.mem_map.mpr ⟨r, hr, by simp [applyBlend, hne]⟩

theorem mem_of_mem_processRow (today : String) (L : List LedgerRecord)
    (row : SnapshotRow) (r : LedgerRecord) (hmem : r ∈ processRow today L row)
    (hne : r.wallet_address ≠ row.wallet) : r ∈ L := by
  rcases hf : L.find? (fun x => x.wallet_address == row.wallet) with - | r0 <;>
    simp only [processRow, hf] at hmem
  · rcases List.mem_append.mp hmem with h | h
    · exact h
    · rw [List.mem_singleton] at h
      exact absurd (by rw [h]) hne
  · obtain ⟨r', hr', he⟩ := List.mem_map.mp hmem
    by_cases hc : r'.wallet_address = row.wallet
    · exfalso
      apply hne
      rw [← he, applyBlend_wallet]
      exact hc
    · have he' : r' = r := by
        rw [← he]
        simp [applyBlend, hc]
      exact he' ▸ hr'

theorem mem_foldl_processRow (today : String) :
    ∀ (S : List SnapshotRow) (L : List LedgerRecord) (r : LedgerRecord),
      r ∈ L → (∀ s ∈ S, s.wallet ≠ r.wallet_address) →
      r ∈ S.foldl (processRow today) L := by
  intro S
  induction S with
  | nil => intro L r hr _; simpa using hr
  | cons s S ih =>
    intro L r hr hS
    simp only [List.foldl_cons]
    apply ih
    · exact mem_processRow_of_ne today L s r hr
        (fun he => hS s (List.mem_cons_self _ _) he.symm)
    · intro s' hs'
      exact hS s' (List.mem_cons_of_mem _ hs')

theorem mem_of_mem_foldl_processRow (today : String) :
    ∀ (S : List SnapshotRow) (L : List LedgerRecord) (r : LedgerRecord),
      r ∈ S.foldl (processRow today) L →
      (∀ s ∈ S, s.wallet ≠ r.wallet_address) → r ∈ L := by
  intro S
  induction S with
  | nil => intro L r hr _; simpa using hr
  | cons s S ih =>
    intro L r hr hS
    simp only [List.foldl_cons] at hr
    have h1 : r ∈ processRow today L s :=
      ih (processRow today L s) r hr (fun s' hs' => hS s' (List.mem_cons_of_mem _ hs'))
    exact mem_of_mem_processRow today L s r h1
      (fun he => hS s (List.mem_cons_self _ _) he.symm)

theorem mem_touchLastSeen_of_ne (today : String) (S : List SnapshotRow)
    (L : List LedgerRecord) (r : LedgerRecord)
    (hne : ∀ s ∈ S, s.wallet ≠ r.wallet_address) (hr : r ∈ L) :
    r ∈ touchLastSeen today S L := by
  unfold touchLastSeen
  refine List.mem_map.mpr ⟨r, hr, ?_⟩
  have hany : S.any (fun s => s.wallet == r.wallet_address) = false := by
    rw [List.any_eq_false]
    intro s hs
    simp [hne s hs]
  simp [hany]

theorem mem_of_mem_touchLastSeen (today : String) (S : List SnapshotRow)
    (L : List LedgerRecord) (r : LedgerRecord)
    (hmem : r ∈ touchLastSeen today S L)
    (hne : ∀ s ∈ S, s.wallet ≠ r.wallet_address) : r ∈ L := by
  unfold touchLastSeen at hmem
  obtain ⟨r', hr', he⟩ := List.mem_map.mp hmem
  by_cases hc : S.any (fun s => s.wallet == r'.wallet_address) = true
  · obtain ⟨s, hs, hsw⟩ := List.any_eq_true.mp hc
    exfalso
    apply hne s hs
    have hw : r.wallet_address = r'.wallet_address := by
      rw [← he, if_pos hc]
    rw [hw]
    exact eq_of_beq hsw
  · rw [if_neg hc] at he
    exact he ▸ hr'

/-- C9: reconciliation leaves every ledger record whose wallet does not occur
in the snapshot untouched — the identical record (same score, appearances and
last-seen date) is still present after the update, only its position can
change — and every such record of the updated ledger was already present
before; reconciling an empty snapshot permutes the ledger without changing
any record. -/
theorem update_scores_frame (today : String) (L : List LedgerRecord)
    (S : List SnapshotRow) :
    (∀ r ∈ L, (∀ s ∈ S, s.wallet ≠ r.wallet_address) →
      r ∈ update_scores today L S) ∧
      (∀ r ∈ update_scores today L S, (∀ s ∈ S, s.wallet ≠ r.wallet_address) →
        r ∈ L) ∧
      List.Perm (update_scores today L []) L := by
  refine ⟨?_, ?_, ?_⟩
  · intro r hr hne
    unfold update_scores sortLedger
    rw [List.mem_mergeSort]
    exact mem_touchLastSeen_of_ne today S _ r hne
      (mem_foldl_processRow today S L r hr hne)
  · intro r hr hne
    unfold update_scores sortLedger at hr
    rw [List.mem_mergeSort] at hr
    exact mem_of_mem_foldl_processRow today S L r
      (mem_of_mem_touchLastSeen today S _ r hr hne) hne
  · unfold update_scores sortLedger
    have ht : touchLastSeen today []
        (List.foldl (processRow today) L []) = L := by
      simp [touchLastSeen]
    rw [ht]
    exact List.mergeSort_perm L _

/-- C9 witness: a record whose wallet is absent from the snapshot survives
reconciliation unchanged; the empty snapshot permutes the singleton ledger. -/
theorem update_scores_frame_witness :
    ((⟨"A", 50, "d0", 2⟩ : LedgerRecord) ∈
      update_scores "d1" [⟨"A", 50, "d0", 2⟩] [⟨"B", 90⟩]) ∧
      List.Perm (update_scores "d1" [⟨"A", 50, "d0", 2⟩] [])
        [(⟨"A", 50, "d0", 2⟩ : LedgerRecord)] := by
  refine ⟨?_, (update_scores_frame "d1" [⟨"A", 50, "d0", 2⟩] []).2.2⟩
  refine (update_scores_frame "d1" [⟨"A", 50, "d0", 2⟩] [⟨"B", 90⟩]).1 _
    (List.mem_singleton.mpr rfl) ?_
  intro s hs
  rw [List.mem_singleton] at hs
  subst hs
  decide

end CrowsNest
